import Mathlib

/-!
Shallow embedding of `ia-interact.py`, a menu-driven client for the Internet
Archive: chunked file upload, file listing, deletion, move (copy-then-delete),
and bulk repository initialization.  Network responses are supplied as oracle
arguments (a status code per request, or a status/exception outcome), and each
embedded operation returns the list of HTTP requests it issues together with
its result value, so that the theorems below can speak both about return
values and about which requests are (or are not) sent.
-/

set_option maxHeartbeats 1000000

namespace IAInteract

/-- A byte of file content, modelled as a natural number. -/
abbrev Byte := Nat

/-- An HTTP request as issued by the program: method, URL, header list, raw
body bytes (empty where the body is irrelevant to the claims), and the
optional (connect, read) timeout pair passed to the `requests` call. -/
structure Req where
  method : String
  url : String
  headers : List (String × String)
  body : List Byte
  timeout : Option (Nat × Nat)
deriving DecidableEq

/-- Python truthiness test used on `os.getenv` results: `not key` is true
exactly when the variable is unset (`None`) or the empty string. -/
def falsyEnv : Option String → Bool
  | none => true
  | some s => s.isEmpty

/-- The header dict built at lines 44-47, 117-120, 250-253 of the source:
auto-bucket creation plus the `AWS key:secret` authorization header. -/
def authHeaders (accessKey secretKey : String) : List (String × String) :=
  [("x-amz-auto-make-bucket", "1"),
   ("Authorization", "AWS " ++ accessKey ++ ":" ++ secretKey)]

/-- Boolean test for a character other than the path separator. -/
def notSlash (c : Char) : Bool := c != '/'

/-- Embedding of `os.path.basename`: the part of the path after the last
slash. -/
def basename (path : String) : String :=
  ⟨(path.toList.reverse.takeWhile notSlash).reverse⟩

/-! ### Chunked upload (`upload_file_with_progress`, lines 20-71) -/

/-- The chunk size of the read loop at line 53: 2 MiB. -/
def chunkSize : Nat := 2 * 1024 * 1024

/-- The sequence of chunks produced by repeatedly calling
`f.read(1024 * 1024 * 2)` until the file is exhausted. -/
def chunksOf (l : List Byte) : List (List Byte) :=
  if l = [] then []
  else l.take chunkSize :: chunksOf (l.drop chunkSize)
termination_by l.length
decreasing_by
  have hlen : 0 < l.length := List.length_pos.mpr (by assumption)
  simp only [List.length_drop, chunkSize]
  omega

/-- The upload URL built at line 31. -/
def uploadUrl (identifier directory base : String) : String :=
  "https://s3.us.archive.org/" ++ identifier ++ "/" ++ directory ++ "/" ++ base

/-- The per-chunk PUT loop of lines 52-60: each chunk is PUT to the same URL
with the same headers and the `(60, 600)` timeout; the statuses of the
successive PUTs are given by the oracle `resp`; a non-200 status aborts the
loop with result `false`. -/
def uploadLoop (u : String) (hs : List (String × String)) (resp : Nat → Nat) :
    List (List Byte) → Nat → List Req × Bool
  | [], _ => ([], true)
  | chunk :: rest, i =>
    let req : Req := ⟨"PUT", u, hs, chunk, some (60, 600)⟩
    if resp i = 200 then
      let next := uploadLoop u hs resp rest (i + 1)
      (req :: next.1, next.2)
    else ([req], false)

/-- Embedding of `upload_file_with_progress` (lines 20-62): credential check,
then the chunked PUT loop.  `fileData` is the content of the local file and
`resp i` the HTTP status answered to the `i`-th chunk PUT. -/
def upload_file_with_progress (akEnv skEnv : Option String)
    (identifier filePath directory : String) (fileData : List Byte)
    (resp : Nat → Nat) : List Req × Bool :=
  if falsyEnv akEnv || falsyEnv skEnv then ([], false)
  else
    uploadLoop (uploadUrl identifier directory (basename filePath))
      (authHeaders (akEnv.getD "") (skEnv.getD "")) resp (chunksOf fileData) 0

/-! ### Retrying HTTP client (lines 34-42)

The source configures `urllib3.util.retry.Retry(total=5, backoff_factor=2,
status_forcelist=[500, 502, 503, 504], allowed_methods=["PUT"])` mounted on a
`requests` session.  The implementation of `Retry`/`HTTPAdapter` is library
code outside this repository. -/

/-- The `status_forcelist` value at line 37. -/
def status_forcelist : List Nat := [500, 502, 503, 504]

/-- Modelled from the spec: the total attempt bound of the retry policy.  The
spec reads the configuration `total=5` as "up to 5 total attempts"; the
`Retry` implementation itself is not part of this repository's sources. -/
def maxTotalAttempts : Nat := 5

/-- The `backoff_factor` value at line 36. -/
def backoffFactor : Nat := 2

/-- Modelled from the spec: the backoff delay inserted before the
`(k+2)`-nd attempt grows exponentially with base factor 2. -/
def backoffDelay (k : Nat) : Nat := backoffFactor * 2 ^ k

/-- Modelled from the spec: the attempt loop of the retrying transport for a
PUT.  `fuel` is the number of retries still allowed after the current
attempt; `resp i` is the status answered to the `i`-th attempt.  A status in
`status_forcelist` is retried while retries remain; the result is the number
of attempts made and the final status. -/
def runPut (resp : Nat → Nat) : Nat → Nat → Nat × Nat
  | 0, i => (1, resp i)
  | fuel + 1, i =>
    let s := resp i
    if s ∈ status_forcelist then
      let next := runPut resp fuel (i + 1)
      (next.1 + 1, next.2)
    else (1, s)

/-- Modelled from the spec: the retrying client dispatch.  Only the method
`PUT` is in `allowed_methods`, so only PUT is retried; every other method is
issued exactly once.  Returns (number of attempts, final status). -/
def sendRequest (method : String) (resp : Nat → Nat) : Nat × Nat :=
  if method = "PUT" then runPut resp (maxTotalAttempts - 1) 0
  else (1, resp 0)

/-! ### Identifier extraction (`get_repo_identifier`, lines 8-18) -/

/-- The literal part of the regular expression at line 13. -/
def marker : String := "archive.org/details/"

/-- The marker as a character list. -/
def markerL : List Char := marker.toList

/-- The capture group `([^/]+)` evaluated at the current position: the
maximal run of non-slash characters after the marker. -/
def segAfter (l : List Char) : List Char :=
  (l.drop markerL.length).takeWhile notSlash

/-- Embedding of `re.search(r"archive\.org/details/([^&#x2F;]+)", link)`: scan
left to right for the first position where the whole pattern matches, i.e.
the marker occurs and is followed by at least one non-slash character, and
return the capture group there. -/
def searchDetails : List Char → Option (List Char)
  | [] => none
  | c :: rest =>
    if markerL.isPrefixOf (c :: rest) && !(segAfter (c :: rest)).isEmpty then
      some (segAfter (c :: rest))
    else searchDetails rest

/-- Embedding of `get_repo_identifier` (lines 8-18): the capture group of the
first match, or `none` (after a reported failure) when the pattern does not
match. -/
def get_repo_identifier (link : String) : Option String :=
  (searchDetails link.toList).map fun cs => ⟨cs⟩

/-- Whether the whole pattern of `get_repo_identifier` matches at offset `i`
of `l`: the marker is a prefix of the suffix starting at `i` and the capture
group there is nonempty. -/
def goodAt (l : List Char) (i : Nat) : Bool :=
  markerL.isPrefixOf (l.drop i) && !(segAfter (l.drop i)).isEmpty

/-! ### File listing (`list_repository_files`, lines 73-105) -/

/-- The filtering sentinel of line 93. -/
def thumbsMarker : List Char := ".thumbs".toList

/-- Embedding of Python `name.split("/")`. -/
def splitSlash : List Char → List (List Char)
  | [] => [[]]
  | c :: rest =>
    if c = '/' then [] :: splitSlash rest
    else
      match splitSlash rest with
      | [] => [[c]]
      | h :: t => (c :: h) :: t

/-- Line 93: some component of the slash-split name ends with `.thumbs`. -/
def hasThumbsComponent (name : List Char) : Bool :=
  (splitSlash name).any fun component => thumbsMarker.isSuffixOf component

/-- The accumulation loop of lines 88-95: records without a `name` field are
skipped, names with a `.thumbs` component are skipped, the rest are kept in
order. -/
def filterFilesLoop : List (Option (List Char)) → List (List Char)
  | [] => []
  | none :: rest => filterFilesLoop rest
  | some name :: rest =>
    if hasThumbsComponent name then filterFilesLoop rest
    else name :: filterFilesLoop rest

/-- Embedding of `list_repository_files` (lines 73-105): one GET to the
metadata URL (no timeout argument in the source), an empty result on a
non-200 status, otherwise the filtered name list.  `files` is the parsed
`files` array, each record's optional `name` field. -/
def list_repository_files (identifier : String) (respStatus : Nat)
    (files : List (Option (List Char))) : List Req × List (List Char) :=
  ([⟨"GET", "https://archive.org/metadata/" ++ identifier, [], [], none⟩],
   if respStatus = 200 then filterFilesLoop files else [])

/-! ### Deletion (`delete_file`, lines 107-131) -/

/-- The delete URL built at line 116. -/
def deleteUrl (identifier filePath : String) : String :=
  "https://s3.us.archive.org/" ++ identifier ++ "/" ++ filePath

/-- The DELETE request of line 122 (no timeout argument in the source). -/
def deleteReq (accessKey secretKey identifier filePath : String) : Req :=
  ⟨"DELETE", deleteUrl identifier filePath, authHeaders accessKey secretKey,
   [], none⟩

/-- Embedding of `delete_file` (lines 107-131): credential check, one DELETE,
success exactly on status 200 or 204. -/
def delete_file (akEnv skEnv : Option String) (identifier filePath : String)
    (resp : Nat) : List Req × Bool :=
  if falsyEnv akEnv || falsyEnv skEnv then ([], false)
  else
    ([deleteReq (akEnv.getD "") (skEnv.getD "") identifier filePath],
     if resp ∈ [200, 204] then true else false)

/-! ### Move (`move_file`, lines 133-168) -/

/-- The path computations of lines 144-145: join a non-empty directory with
the file name, otherwise the bare file name. -/
def srcPath (dir fileName : String) : String :=
  if dir = "" then fileName else dir ++ "/" ++ fileName

/-- The copy PUT of lines 147-155: destination URL, auth headers plus the
`x-amz-copy-source` header referencing the source path, no timeout argument
in the source. -/
def copyReq (accessKey secretKey identifier sourcePath destPath : String) : Req :=
  ⟨"PUT", "https://s3.us.archive.org/" ++ identifier ++ "/" ++ destPath,
   authHeaders accessKey secretKey ++
     [("x-amz-copy-source", "/" ++ identifier ++ "/" ++ sourcePath)],
   [], none⟩

/-- Embedding of `move_file` (lines 133-168): credential check, copy PUT,
early return on a status outside 200/201, otherwise `delete_file` on the
source path; the overall result is the delete's result. -/
def move_file (akEnv skEnv : Option String)
    (identifier fileName sourceDir targetDir : String)
    (copyResp deleteResp : Nat) : List Req × Bool :=
  if falsyEnv akEnv || falsyEnv skEnv then ([], false)
  else
    let sp := srcPath sourceDir fileName
    let dp := srcPath targetDir fileName
    let creq := copyReq (akEnv.getD "") (skEnv.getD "") identifier sp dp
    if copyResp ∉ [200, 201] then ([creq], false)
    else
      let del := delete_file akEnv skEnv identifier sp deleteResp
      (creq :: del.1, del.2)

/-- Remote object store abstraction: a map from path to optional content,
used to state the net effect of the copy-source PUT and the DELETE. -/
def Store : Type := String → Option (List Byte)

/-- Effect of a successful copy PUT with `x-amz-copy-source`: the destination
path now holds the content found at the source path. -/
def storeAfterCopy (st : Store) (sourcePath destPath : String) : Store :=
  fun q => if q = destPath then st sourcePath else st q

/-- Effect of a successful DELETE of `path`. -/
def storeAfterDelete (st : Store) (path : String) : Store :=
  fun q => if q = path then none else st q

/-- Net remote effect of a fully successful move: copy then delete of the
source path. -/
def storeAfterMove (st : Store) (sourcePath destPath : String) : Store :=
  storeAfterDelete (storeAfterCopy st sourcePath destPath) sourcePath

/-! ### Bulk initialization (`initialize_repository`, lines 221-277) -/

/-- Outcome of one per-file upload attempt in the Permanent-mode loop: either
an HTTP response with the given status, or an exception caught by the
`except` clause at lines 265-266. -/
inductive UpOutcome where
  | status (code : Nat)
  | exn
deriving DecidableEq

/-- Line 240/248: `os.path.relpath(os.path.join(root, name), folder_path)`
where `root` lies under `folder_path`; `relRoot` is `root` relative to
`folder_path` (empty at the top level). -/
def relPathOf (relRoot name : String) : String :=
  if relRoot = "" then name else relRoot ++ "/" ++ name

/-- The files produced by the `os.walk` loop, as (relative path, content)
pairs.  `os.walk` is standard-library traversal; it is modelled by its
yielded list `walk` of (directory relative to the folder root, contained
files) pairs, in traversal order. -/
def walkFiles (walk : List (String × List (String × List Byte))) :
    List (String × List Byte) :=
  walk.flatMap fun entry => entry.2.map fun f => (relPathOf entry.1 f.1, f.2)

/-- The per-file PUT of lines 249-259: whole file body, auth headers, no
timeout argument in the source. -/
def permReq (identifier accessKey secretKey : String)
    (f : String × List Byte) : Req :=
  ⟨"PUT", "https://s3.us.archive.org/" ++ identifier ++ "/" ++ f.1,
   authHeaders accessKey secretKey, f.2, none⟩

/-- The metadata URL of line 268. -/
def metadataUrl (identifier : String) : String :=
  "https://archive.org/metadata/" ++ identifier ++ "/metadata"

/-- The metadata POST of line 271 (form body not modelled, no timeout
argument in the source). -/
def postReq (identifier : String) : Req :=
  ⟨"POST", metadataUrl identifier, [], [], none⟩

/-- The Permanent-mode upload loop of lines 245-266: a non-200 status returns
early (second component `false`, no metadata POST will follow); a caught
exception is reported and the loop continues with the next file. -/
def permUploadLoop (identifier accessKey secretKey : String)
    (outcome : Nat → UpOutcome) :
    List (String × List Byte) → Nat → List Req × Bool
  | [], _ => ([], true)
  | f :: rest, i =>
    let req := permReq identifier accessKey secretKey f
    match outcome i with
    | UpOutcome.status c =>
      if c = 200 then
        let next := permUploadLoop identifier accessKey secretKey outcome rest (i + 1)
        (req :: next.1, next.2)
      else ([req], false)
    | UpOutcome.exn =>
      let next := permUploadLoop identifier accessKey secretKey outcome rest (i + 1)
      (req :: next.1, next.2)

/-- The two modes offered by the menu (lines 330-340). -/
inductive Mode where
  | Test
  | Permanent
deriving DecidableEq

/-- Embedding of `initialize_repository` (lines 221-277): the credential
check precedes the mode test; Test mode issues no requests and returns the
would-upload relative paths; Permanent mode runs the upload loop and, when
the loop was not aborted by a non-200 status, POSTs the metadata once.  The
first component is the list of issued requests, the second the list of
would-upload paths printed in Test mode. -/
def initialize_repository (akEnv skEnv : Option String) (identifier : String)
    (walk : List (String × List (String × List Byte))) (mode : Mode)
    (outcome : Nat → UpOutcome) : List Req × List String :=
  if falsyEnv akEnv || falsyEnv skEnv then ([], [])
  else
    match mode with
    | Mode.Test => ([], (walkFiles walk).map Prod.fst)
    | Mode.Permanent =>
      let r := permUploadLoop identifier (akEnv.getD "") (skEnv.getD "")
        outcome (walkFiles walk) 0
      (if r.2 then r.1 ++ [postReq identifier] else r.1, [])

/-! ### Multi-file upload menu flow (`main`, lines 372-379) -/

/-- The batch loop of lines 372-375: `success` starts `True`, a failed upload
sets it to `False`, and the loop continues with the next file regardless.
`results i` is the result of the `i`-th `upload_file_with_progress` call;
the first component is the list of files attempted, in order. -/
def uploadBatchLoop (results : Nat → Bool) :
    List String → Nat → Bool → List String × Bool
  | [], _, success => ([], success)
  | f :: rest, i, success =>
    let next := uploadBatchLoop results rest (i + 1) (success && results i)
    (f :: next.1, next.2)

/-- The whole batch: every file in the list is attempted, and the run is
reported as an overall success exactly when the final flag is `true`. -/
def upload_menu_batch (results : Nat → Bool) (files : List String) :
    List String × Bool :=
  uploadBatchLoop results files 0 true

/-! ## Helper lemmas -/

theorem uploadLoop_flag_iff (u : String) (hs : List (String × String))
    (resp : Nat → Nat) (cs : List (List Byte)) : ∀ i : Nat,
    ((uploadLoop u hs resp cs i).2 = true ↔ ∀ j < cs.length, resp (i + j) = 200) := by
  induction cs with
  | nil => intro i; simp [uploadLoop]
  | cons c rest ih =>
    intro i
    by_cases h : resp i = 200
    · simp only [uploadLoop, if_pos h]
      rw [ih (i + 1)]
      constructor
      · intro H j hj
        match j with
        | 0 => simpa using h
        | j + 1 =>
          have hw := H j (by simpa [List.length_cons] using Nat.lt_of_succ_lt_succ hj)
          rw [show i + (j + 1) = i + 1 + j from by omega]
          exact hw
      · intro H j hj
        have hw := H (j + 1) (by simpa [List.length_cons] using Nat.succ_lt_succ hj)
        rw [show i + 1 + j = i + (j + 1) from by omega]
        exact hw
    · simp only [uploadLoop, if_neg h]
      constructor
      · intro hfalse; exact (Bool.false_ne_true hfalse).elim
      · intro H
        exact absurd (show resp i = 200 by simpa using H 0 (Nat.succ_pos _)) h

theorem uploadLoop_mem (u : String) (hs : List (String × String))
    (resp : Nat → Nat) (cs : List (List Byte)) : ∀ (i : Nat) (r : Req),
    r ∈ (uploadLoop u hs resp cs i).1 →
    r.method = "PUT" ∧ r.url = u ∧ r.headers = hs ∧ r.timeout = some (60, 600) := by
  induction cs with
  | nil => intro i r hr; simp [uploadLoop] at hr
  | cons c rest ih =>
    intro i r hr
    by_cases h : resp i = 200
    · simp only [uploadLoop, if_pos h] at hr
      rcases List.mem_cons.mp hr with h1 | h2
      · subst h1; exact ⟨rfl, rfl, rfl, rfl⟩
      · exact ih (i + 1) r h2
    · simp only [uploadLoop, if_neg h] at hr
      rcases List.mem_cons.mp hr with h1 | h2
      · subst h1; exact ⟨rfl, rfl, rfl, rfl⟩
      · simp at h2

theorem uploadLoop_map_body (u : String) (hs : List (String × String))
    (resp : Nat → Nat) (cs : List (List Byte)) : ∀ i : Nat,
    (uploadLoop u hs resp cs i).1.map Req.body =
      cs.take (uploadLoop u hs resp cs i).1.length := by
  induction cs with
  | nil => intro i; simp [uploadLoop]
  | cons c rest ih =>
    intro i
    by_cases h : resp i = 200
    · simp only [uploadLoop, if_pos h, List.map_cons, List.length_cons,
        List.take_succ_cons]
      rw [ih (i + 1)]
    · simp only [uploadLoop, if_neg h]
      simp

theorem uploadLoop_length_eq (u : String) (hs : List (String × String))
    (resp : Nat → Nat) (cs : List (List Byte)) : ∀ i : Nat,
    (uploadLoop u hs resp cs i).2 = true →
    (uploadLoop u hs resp cs i).1.length = cs.length := by
  induction cs with
  | nil => intro i _; simp [uploadLoop]
  | cons c rest ih =>
    intro i hok
    by_cases h : resp i = 200
    · simp only [uploadLoop, if_pos h] at hok ⊢
      simp only [List.length_cons]
      rw [ih (i + 1) hok]
    · simp only [uploadLoop, if_neg h] at hok
      exact absurd hok Bool.false_ne_true

theorem uploadLoop_fail (u : String) (hs : List (String × String))
    (resp : Nat → Nat) (cs : List (List Byte)) : ∀ i : Nat,
    (uploadLoop u hs resp cs i).2 = false →
    ∃ k, (uploadLoop u hs resp cs i).1.length = k + 1 ∧ k < cs.length ∧
      resp (i + k) ≠ 200 ∧ ∀ j < k, resp (i + j) = 200 := by
  induction cs with
  | nil => intro i hbad; simp [uploadLoop] at hbad
  | cons c rest ih =>
    intro i hbad
    by_cases h : resp i = 200
    · simp only [uploadLoop, if_pos h] at hbad ⊢
      obtain ⟨k, hlen, hk, hfailed, hbefore⟩ := ih (i + 1) hbad
      refine ⟨k + 1, ?_, ?_, ?_, ?_⟩
      · simp only [List.length_cons, hlen]
      · simpa [List.length_cons] using Nat.succ_lt_succ hk
      · rw [show i + (k + 1) = i + 1 + k from by omega]; exact hfailed
      · intro j hj
        match j with
        | 0 => simpa using h
        | j + 1 =>
          have hw := hbefore j (Nat.lt_of_succ_lt_succ hj)
          rw [show i + (j + 1) = i + 1 + j from by omega]
          exact hw
    · refine ⟨0, ?_, ?_, ?_, ?_⟩
      · simp [uploadLoop, if_neg h]
      · simp
      · simpa using h
      · intro j hj; exact absurd hj (Nat.not_lt_zero j)

theorem chunksOf_flatten (l : List Byte) : (chunksOf l).flatten = l := by
  induction l using chunksOf.induct with
  | case1 => simp [chunksOf]
  | case2 l hl ih =>
    rw [chunksOf, if_neg hl]
    simp only [List.flatten_cons]
    rw [ih, List.take_append_drop]

theorem chunksOf_length_le (l : List Byte) :
    ∀ c ∈ chunksOf l, c.length ≤ chunkSize := by
  induction l using chunksOf.induct with
  | case1 => simp [chunksOf]
  | case2 l hl ih =>
    intro c hc
    rw [chunksOf, if_neg hl] at hc
    rcases List.mem_cons.mp hc with h1 | h2
    · subst h1
      simp only [List.length_take]
      exact Nat.min_le_left chunkSize l.length
    · exact ih c h2

/-! ## Claim theorems -/

/-- C1: with credentials present, `upload_file_with_progress` reads the file
sequentially in 2 MiB chunks (the chunks concatenate back to the file and
none exceeds 2 MiB), sends each chunk as the body of one PUT to the single
target URL with the auto-bucket and authorization headers, aborts with
result `false` right after the first chunk whose status is not 200 (sending
no further chunks), and returns `true` exactly when every chunk received
status 200. -/
theorem upload_chunked_spec (akEnv skEnv : Option String)
    (identifier filePath directory : String) (fileData : List Byte)
    (resp : Nat → Nat)
    (hak : falsyEnv akEnv = false) (hsk : falsyEnv skEnv = false) :
    ((upload_file_with_progress akEnv skEnv identifier filePath directory fileData resp).2 = true
       ↔ ∀ j < (chunksOf fileData).length, resp j = 200) ∧
    (∀ r ∈ (upload_file_with_progress akEnv skEnv identifier filePath directory fileData resp).1,
       r.method = "PUT" ∧
       r.url = uploadUrl identifier directory (basename filePath) ∧
       r.headers = authHeaders (akEnv.getD "") (skEnv.getD "") ∧
       r.timeout = some (60, 600)) ∧
    ((upload_file_with_progress akEnv skEnv identifier filePath directory fileData resp).1.map Req.body =
       (chunksOf fileData).take
         (upload_file_with_progress akEnv skEnv identifier filePath directory fileData resp).1.length) ∧
    ((upload_file_with_progress akEnv skEnv identifier filePath directory fileData resp).2 = true →
       (upload_file_with_progress akEnv skEnv identifier filePath directory fileData resp).1.length =
         (chunksOf fileData).length) ∧
    ((upload_file_with_progress akEnv skEnv identifier filePath directory fileData resp).2 = false →
       ∃ k, (upload_file_with_progress akEnv skEnv identifier filePath directory fileData resp).1.length = k + 1 ∧
         k < (chunksOf fileData).length ∧ resp k ≠ 200 ∧ ∀ j < k, resp j = 200) ∧
    (chunksOf fileData).flatten = fileData ∧
    (∀ c ∈ chunksOf fileData, c.length ≤ chunkSize) := by
  have hcond : (falsyEnv akEnv || falsyEnv skEnv) = false := by rw [hak, hsk]; rfl
  simp only [upload_file_with_progress, hcond, Bool.false_eq_true, if_false]
  refine ⟨?_, ?_, ?_, ?_, ?_, chunksOf_flatten fileData, chunksOf_length_le fileData⟩
  · simpa using uploadLoop_flag_iff (uploadUrl identifier directory (basename filePath))
      (authHeaders (akEnv.getD "") (skEnv.getD "")) resp (chunksOf fileData) 0
  · intro r hr
    exact uploadLoop_mem _ _ resp (chunksOf fileData) 0 r hr
  · exact uploadLoop_map_body _ _ resp (chunksOf fileData) 0
  · exact uploadLoop_length_eq _ _ resp (chunksOf fileData) 0
  · intro hbad
    simpa using uploadLoop_fail _ _ resp (chunksOf fileData) 0 hbad

/-- Witness for C1 at concrete inputs: credentials are present and the
success-iff-all-200 characterization holds for a three-byte file. -/
theorem upload_chunked_spec_witness :
    falsyEnv (some "AK") = false ∧ falsyEnv (some "SK") = false ∧
    ((upload_file_with_progress (some "AK") (some "SK") "id" "tmp/f.bin" "docs"
        [1, 2, 3] (fun _ => 200)).2 = true
      ↔ ∀ j < (chunksOf [1, 2, 3]).length, (fun _ => 200 : Nat → Nat) j = 200) :=
  ⟨rfl, rfl,
   (upload_chunked_spec (some "AK") (some "SK") "id" "tmp/f.bin" "docs"
      [1, 2, 3] (fun _ => 200) rfl rfl).1⟩

theorem runPut_attempts_pos (resp : Nat → Nat) :
    ∀ fuel i, 1 ≤ (runPut resp fuel i).1 := by
  intro fuel
  induction fuel with
  | zero => intro i; simp [runPut]
  | succ f ih =>
    intro i
    by_cases h : resp i ∈ status_forcelist
    · simp only [runPut, if_pos h]
      have := ih (i + 1)
      omega
    · simp [runPut, if_neg h]

theorem runPut_attempts_le (resp : Nat → Nat) :
    ∀ fuel i, (runPut resp fuel i).1 ≤ fuel + 1 := by
  intro fuel
  induction fuel with
  | zero => intro i; simp [runPut]
  | succ f ih =>
    intro i
    by_cases h : resp i ∈ status_forcelist
    · simp only [runPut, if_pos h]
      have := ih (i + 1)
      omega
    · simp only [runPut, if_neg h]
      omega

/-- C2 (spec-modelled retry client): only the PUT method is retried — every
other method is issued exactly once with its first status as result; a PUT
makes at most 5 total attempts; a first status outside 500/502/503/504 ends a
PUT after one attempt, while a status in the forcelist forces at least a
second attempt; the backoff between attempts doubles (base factor 2); a PUT
answered 503 on the first 4 attempts and 200 on the 5th ends with status 200
(overall success) after exactly 5 attempts, and a PUT answered 503 on all 5
attempts ends with status 503 (overall failure, status not 200). -/
theorem retry_client_spec :
    (∀ (method : String) (resp : Nat → Nat), method ≠ "PUT" →
       sendRequest method resp = (1, resp 0)) ∧
    (∀ resp : Nat → Nat, (sendRequest "PUT" resp).1 ≤ maxTotalAttempts) ∧
    (∀ resp : Nat → Nat, resp 0 ∉ status_forcelist →
       sendRequest "PUT" resp = (1, resp 0)) ∧
    (∀ resp : Nat → Nat, resp 0 ∈ status_forcelist →
       2 ≤ (sendRequest "PUT" resp).1) ∧
    sendRequest "PUT" (fun i => if i < 4 then 503 else 200) = (5, 200) ∧
    (sendRequest "PUT" (fun _ => 503) = (5, 503) ∧ (503 : Nat) ≠ 200) ∧
    (∀ k, backoffDelay (k + 1) = 2 * backoffDelay k) := by
  refine ⟨?_, ?_, ?_, ?_, by decide, ⟨by decide, by decide⟩, ?_⟩
  · intro method resp hm
    simp [sendRequest, hm]
  · intro resp
    have h := runPut_attempts_le resp (maxTotalAttempts - 1) 0
    rw [sendRequest, if_pos rfl]
    simp only [maxTotalAttempts] at h ⊢
    omega
  · intro resp h
    rw [sendRequest, if_pos rfl]
    simp only [maxTotalAttempts]
    rw [show (5 : Nat) - 1 = 3 + 1 from rfl, runPut]
    simp [if_neg h]
  · intro resp h
    have hpos := runPut_attempts_pos resp 3 1
    rw [sendRequest, if_pos rfl]
    simp only [maxTotalAttempts]
    rw [show (5 : Nat) - 1 = 3 + 1 from rfl, runPut]
    simp [h]
    omega
  · intro k
    simp [backoffDelay, backoffFactor, Nat.pow_succ]
    ring

/-- Witness for C2 at concrete inputs: GET is not PUT and is issued once; a
404 is not in the forcelist and ends a PUT after one attempt. -/
theorem retry_client_spec_witness :
    ("GET" ≠ "PUT" ∧ sendRequest "GET" (fun _ => 503) = (1, 503)) ∧
    ((404 : Nat) ∉ status_forcelist ∧ sendRequest "PUT" (fun _ => 404) = (1, 404)) :=
  ⟨⟨by decide, retry_client_spec.1 "GET" (fun _ => 503) (by decide)⟩,
   ⟨by decide, retry_client_spec.2.2.1 (fun _ => 404) (by decide)⟩⟩

/-- C4: with credentials present, if the copy PUT status is outside 200/201
the DELETE is never attempted (the trace is the single copy request) and the
operation returns `false`; if the copy succeeds and the subsequent delete
status is outside 200/204, the operation returns `false`, the trace is
exactly the copy request followed by the DELETE of the source path, and no
compensating DELETE of the destination is issued (every DELETE in the trace
targets the source path). -/
theorem move_file_spec (akEnv skEnv : Option String)
    (identifier fileName sourceDir targetDir : String)
    (copyResp deleteResp : Nat)
    (hak : falsyEnv akEnv = false) (hsk : falsyEnv skEnv = false) :
    (copyResp ∉ [200, 201] →
       move_file akEnv skEnv identifier fileName sourceDir targetDir copyResp deleteResp =
         ([copyReq (akEnv.getD "") (skEnv.getD "") identifier
             (srcPath sourceDir fileName) (srcPath targetDir fileName)], false)) ∧
    (copyResp ∈ [200, 201] → deleteResp ∉ [200, 204] →
       (move_file akEnv skEnv identifier fileName sourceDir targetDir copyResp deleteResp).2 = false ∧
       (move_file akEnv skEnv identifier fileName sourceDir targetDir copyResp deleteResp).1 =
         [copyReq (akEnv.getD "") (skEnv.getD "") identifier
            (srcPath sourceDir fileName) (srcPath targetDir fileName),
          deleteReq (akEnv.getD "") (skEnv.getD "") identifier (srcPath sourceDir fileName)] ∧
       ∀ r ∈ (move_file akEnv skEnv identifier fileName sourceDir targetDir copyResp deleteResp).1,
         r.method = "DELETE" → r.url = deleteUrl identifier (srcPath sourceDir fileName)) := by
  have hcond : (falsyEnv akEnv || falsyEnv skEnv) = false := by rw [hak, hsk]; rfl
  constructor
  · intro hc
    simp only [move_file, hcond, Bool.false_eq_true, if_false, if_pos hc]
  · intro hc hd
    have hmove : move_file akEnv skEnv identifier fileName sourceDir targetDir copyResp deleteResp =
        ([copyReq (akEnv.getD "") (skEnv.getD "") identifier
            (srcPath sourceDir fileName) (srcPath targetDir fileName),
          deleteReq (akEnv.getD "") (skEnv.getD "") identifier (srcPath sourceDir fileName)],
         false) := by
      simp only [move_file, hcond, Bool.false_eq_true, if_false,
        if_neg (not_not_intro hc), delete_file, if_neg hd]
    refine ⟨by rw [hmove], by rw [hmove], ?_⟩
    intro r hr hmethod
    rw [hmove] at hr
    rcases List.mem_cons.mp hr with h1 | h2
    · subst h1; exact absurd hmethod (by simp [copyReq])
    · rcases List.mem_cons.mp h2 with h3 | h4
      · subst h3; rfl
      · simp at h4

/-- Witness for C4 at concrete inputs: credentials present, copy succeeds
with 200, delete fails with 500, and the move reports failure. -/
theorem move_file_spec_witness :
    falsyEnv (some "AK") = false ∧ (200 : Nat) ∈ [200, 201] ∧
    (500 : Nat) ∉ [200, 204] ∧
    (move_file (some "AK") (some "SK") "id" "f.txt" "a" "b" 200 500).2 = false :=
  ⟨rfl, by decide, by decide,
   ((move_file_spec (some "AK") (some "SK") "id" "f.txt" "a" "b" 200 500 rfl rfl).2
      (by decide) (by decide)).1⟩

/-- C9: when the source and target directories are equal (including both
empty), the computed source and destination paths are the same string, so a
fully successful move issues the copy PUT and then a DELETE of that very
path, and the net store effect of the copy followed by the delete is that
the file is absent at the single path afterwards — removed rather than
preserved. -/
theorem move_file_same_dir (akEnv skEnv : Option String)
    (identifier fileName sourceDir targetDir : String) (st : Store)
    (hak : falsyEnv akEnv = false) (hsk : falsyEnv skEnv = false)
    (hdir : sourceDir = targetDir) :
    srcPath sourceDir fileName = srcPath targetDir fileName ∧
    (move_file akEnv skEnv identifier fileName sourceDir targetDir 200 200).2 = true ∧
    (move_file akEnv skEnv identifier fileName sourceDir targetDir 200 200).1 =
      [copyReq (akEnv.getD "") (skEnv.getD "") identifier
         (srcPath sourceDir fileName) (srcPath sourceDir fileName),
       deleteReq (akEnv.getD "") (skEnv.getD "") identifier (srcPath sourceDir fileName)] ∧
    storeAfterMove st (srcPath sourceDir fileName) (srcPath targetDir fileName)
        (srcPath targetDir fileName) = none := by
  subst hdir
  have hcond : (falsyEnv akEnv || falsyEnv skEnv) = false := by rw [hak, hsk]; rfl
  refine ⟨rfl, ?_, ?_, ?_⟩
  · simp [move_file, hcond, delete_file,
      if_neg (show ¬(200 : Nat) ∉ [200, 201] by decide)]
  · simp [move_file, hcond, delete_file,
      if_neg (show ¬(200 : Nat) ∉ [200, 201] by decide)]
  · simp [storeAfterMove, storeAfterDelete, storeAfterCopy]

/-- Witness for C9 at concrete inputs: same directory on both sides, both
HTTP steps succeed, and the store afterwards holds nothing at the path. -/
theorem move_file_same_dir_witness :
    falsyEnv (some "AK") = false ∧
    (move_file (some "AK") (some "SK") "id" "f.txt" "docs" "docs" 200 200).2 = true ∧
    storeAfterMove (fun _ => some [7]) (srcPath "docs" "f.txt") (srcPath "docs" "f.txt")
      (srcPath "docs" "f.txt") = none :=
  ⟨rfl,
   (move_file_same_dir (some "AK") (some "SK") "id" "f.txt" "docs" "docs"
      (fun _ => some [7]) rfl rfl rfl).2.1,
   (move_file_same_dir (some "AK") (some "SK") "id" "f.txt" "docs" "docs"
      (fun _ => some [7]) rfl rfl rfl).2.2.2⟩

/-- C5 counterexample: the DELETE issued by `delete_file` (source line 122
passes no `timeout` argument) is not bounded by the (60, 600) timeout pair,
refuting the claim that every HTTP request issued by the program is. -/
theorem timeout_counterexample :
    ¬ (∀ r ∈ (delete_file (some "AK") (some "SK") "id" "f.txt" 200).1,
        r.timeout = some (60, 600)) := by
  decide

theorem permUploadLoop_timeout (identifier accessKey secretKey : String)
    (outcome : Nat → UpOutcome) :
    ∀ (fs : List (String × List Byte)) (i : Nat),
      ((permUploadLoop identifier accessKey secretKey outcome fs i).1.all
        fun r => decide (r.timeout = none)) = true := by
  intro fs
  induction fs with
  | nil => intro i; simp [permUploadLoop]
  | cons f rest ih =>
    intro i
    cases h : outcome i with
    | status c =>
      by_cases hc : c = 200
      · simp [permUploadLoop, h, hc, permReq, ih (i + 1)]
      · simp [permUploadLoop, h, hc, permReq]
    | exn => simp [permUploadLoop, h, permReq, ih (i + 1)]

/-- C5 amended: only the chunk-upload PUTs issued by
`upload_file_with_progress` carry the fixed (60 s connect, 600 s read)
timeout pair; every request issued by `delete_file`, `move_file`,
`list_repository_files` and `initialize_repository` is issued with no
timeout at all. -/
theorem timeout_amended_spec :
    (∀ (akEnv skEnv : Option String) (identifier filePath directory : String)
        (fileData : List Byte) (resp : Nat → Nat),
       ((upload_file_with_progress akEnv skEnv identifier filePath directory fileData resp).1.all
         fun r => decide (r.timeout = some (60, 600))) = true) ∧
    (∀ (akEnv skEnv : Option String) (identifier filePath : String) (resp : Nat),
       ((delete_file akEnv skEnv identifier filePath resp).1.all
         fun r => decide (r.timeout = none)) = true) ∧
    (∀ (akEnv skEnv : Option String) (identifier fileName sourceDir targetDir : String)
        (copyResp deleteResp : Nat),
       ((move_file akEnv skEnv identifier fileName sourceDir targetDir copyResp deleteResp).1.all
         fun r => decide (r.timeout = none)) = true) ∧
    (∀ (identifier : String) (respStatus : Nat) (files : List (Option (List Char))),
       ((list_repository_files identifier respStatus files).1.all
         fun r => decide (r.timeout = none)) = true) ∧
    (∀ (akEnv skEnv : Option String) (identifier : String)
        (walk : List (String × List (String × List Byte))) (mode : Mode)
        (outcome : Nat → UpOutcome),
       ((initialize_repository akEnv skEnv identifier walk mode outcome).1.all
         fun r => decide (r.timeout = none)) = true) := by
  refine ⟨?_, ?_, ?_, ?_, ?_⟩
  · intro akEnv skEnv identifier filePath directory fileData resp
    rw [List.all_eq_true]
    intro r hr
    simp only [upload_file_with_progress] at hr
    by_cases hcred : (falsyEnv akEnv || falsyEnv skEnv) = true
    · rw [if_pos hcred] at hr; simp at hr
    · rw [if_neg hcred] at hr
      exact decide_eq_true (uploadLoop_mem _ _ resp (chunksOf fileData) 0 r hr).2.2.2
  · intro akEnv skEnv identifier filePath resp
    by_cases hcred : (falsyEnv akEnv || falsyEnv skEnv) = true
    · simp [delete_file, hcred]
    · simp [delete_file, hcred, deleteReq]
  · intro akEnv skEnv identifier fileName sourceDir targetDir copyResp deleteResp
    by_cases hcred : (falsyEnv akEnv || falsyEnv skEnv) = true
    · simp [move_file, hcred]
    · simp only [move_file, hcred, Bool.false_eq_true, if_false]
      split
      · simp [copyReq]
      · simp [copyReq, delete_file, hcred, deleteReq]
  · intro identifier respStatus files
    simp [list_repository_files]
  · intro akEnv skEnv identifier walk mode outcome
    by_cases hcred : (falsyEnv akEnv || falsyEnv skEnv) = true
    · simp [initialize_repository, hcred]
    · cases mode with
      | Test => simp [initialize_repository, hcred]
      | Permanent =>
        simp only [initialize_repository, hcred, Bool.false_eq_true, if_false]
        have hloop := permUploadLoop_timeout identifier (akEnv.getD "") (skEnv.getD "")
          outcome (walkFiles walk) 0
        cases hflag : (permUploadLoop identifier (akEnv.getD "") (skEnv.getD "")
            outcome (walkFiles walk) 0).2 with
        | true =>
          simp [hflag, List.all_append, hloop, postReq]
        | false =>
          simp [hflag, hloop]

theorem isPrefixOf_append_self (a b : List Char) : a.isPrefixOf (a ++ b) = true := by
  induction a with
  | nil => cases b <;> rfl
  | cons c rest ih => simp [List.isPrefixOf, ih]

theorem takeWhile_append_sep (seg r : List Char)
    (h1 : ∀ c ∈ seg, notSlash c = true)
    (h2 : r = [] ∨ ∃ r2, r = '/' :: r2) :
    (seg ++ r).takeWhile notSlash = seg := by
  induction seg with
  | nil =>
    rcases h2 with h | ⟨r2, h⟩
    · subst h; rfl
    · subst h
      simp [List.takeWhile_cons, notSlash]
  | cons c rest ih =>
    have hc := h1 c (List.mem_cons_self c rest)
    simp only [List.cons_append, List.takeWhile_cons, hc, if_true]
    rw [ih (fun x hx => h1 x (List.mem_cons_of_mem c hx))]

theorem searchDetails_skip (rest : List Char) : ∀ p : List Char,
    (∀ i < p.length, goodAt (p ++ rest) i = false) →
    searchDetails (p ++ rest) = searchDetails rest := by
  intro p
  induction p with
  | nil => intro _; rfl
  | cons c p ih =>
    intro h
    have h0 : (markerL.isPrefixOf (c :: (p ++ rest)) &&
        !(segAfter (c :: (p ++ rest))).isEmpty) = false := by
      simpa [goodAt] using h 0 (Nat.succ_pos _)
    show searchDetails (c :: (p ++ rest)) = searchDetails rest
    simp only [searchDetails]
    rw [h0]
    simp only [Bool.false_eq_true, if_false]
    exact ih (fun i hi => by
      simpa [goodAt, List.drop_succ_cons] using h (i + 1) (Nat.succ_lt_succ hi))

theorem searchDetails_found (l : List Char)
    (h1 : markerL.isPrefixOf l = true) (h2 : (segAfter l).isEmpty = false) :
    searchDetails l = some (segAfter l) := by
  cases l with
  | nil => exact absurd h1 (by decide)
  | cons c rest =>
    simp only [searchDetails]
    rw [h1, h2]
    simp

theorem searchDetails_none : ∀ l : List Char,
    (∀ i < l.length, markerL.isPrefixOf (l.drop i) = false) →
    searchDetails l = none := by
  intro l
  induction l with
  | nil => intro _; rfl
  | cons c rest ih =>
    intro h
    have h0 : markerL.isPrefixOf (c :: rest) = false := by
      simpa using h 0 (Nat.succ_pos _)
    simp only [searchDetails]
    rw [h0]
    simp only [Bool.false_and, Bool.false_eq_true, if_false]
    exact ih (fun i hi => by
      simpa [List.drop_succ_cons] using h (i + 1) (Nat.succ_lt_succ hi))

/-- C6: whenever the URL contains the marker `archive.org/details/` followed
by a nonempty run of non-slash characters (at the first position where the
whole pattern matches, as `re.search` scans), `get_repo_identifier` returns
exactly that run — the characters up to the next slash or the end; and for
any URL in which the marker occurs nowhere, it returns `none`. -/
theorem get_repo_identifier_spec :
    (∀ (s : String) (p seg r : List Char),
       s.toList = p ++ (markerL ++ (seg ++ r)) →
       seg ≠ [] →
       (∀ c ∈ seg, notSlash c = true) →
       (r = [] ∨ ∃ r2, r = '/' :: r2) →
       (∀ i < p.length, goodAt (p ++ (markerL ++ (seg ++ r))) i = false) →
       get_repo_identifier s = some ⟨seg⟩) ∧
    (∀ s : String,
       (∀ i < s.toList.length, markerL.isPrefixOf (s.toList.drop i) = false) →
       get_repo_identifier s = none) := by
  constructor
  · intro s p seg r hs hseg hsegc hr hskip
    have hseg2 : segAfter (markerL ++ (seg ++ r)) = seg := by
      unfold segAfter
      rw [List.drop_left]
      exact takeWhile_append_sep seg r hsegc hr
    have hfound := searchDetails_found (markerL ++ (seg ++ r))
      (isPrefixOf_append_self markerL (seg ++ r))
      (by
        rw [hseg2]
        cases seg with
        | nil => exact absurd rfl hseg
        | cons a b => rfl)
    unfold get_repo_identifier
    rw [hs, searchDetails_skip (markerL ++ (seg ++ r)) p hskip, hfound, hseg2]
    rfl
  · intro s h
    unfold get_repo_identifier
    rw [searchDetails_none s.toList h]
    rfl

/-- Witness for C6 at concrete inputs: a URL containing the marker yields
exactly the following path segment, and a URL lacking the marker yields
`none`. -/
theorem get_repo_identifier_spec_witness :
    get_repo_identifier "https://archive.org/details/myrepo/files" = some ⟨"myrepo".toList⟩ ∧
    get_repo_identifier "https://example.com/page" = none :=
  ⟨get_repo_identifier_spec.1 "https://archive.org/details/myrepo/files"
     "https://".toList "myrepo".toList "/files".toList
     (by decide) (by decide) (by decide)
     (Or.inr ⟨"files".toList, by decide⟩) (by decide),
   get_repo_identifier_spec.2 "https://example.com/page" (by decide)⟩

theorem filterFilesLoop_eq_filter : ∀ files : List (Option (List Char)),
    filterFilesLoop files =
      (files.filterMap id).filter fun n => !hasThumbsComponent n := by
  intro files
  induction files with
  | nil => rfl
  | cons f rest ih =>
    cases f with
    | none => simpa [filterFilesLoop, List.filterMap_cons] using ih
    | some name =>
      cases h : hasThumbsComponent name with
      | true => simp [filterFilesLoop, h, List.filterMap_cons, List.filter_cons, ih]
      | false => simp [filterFilesLoop, h, List.filterMap_cons, List.filter_cons, ih]

/-- C7: with a 200 metadata response, `list_repository_files` returns, in
the order received, exactly those names (records lacking a `name` field are
skipped) whose slash-split path has no component ending in `.thumbs`; on
the example entries `a/b.jpg`, `a/b.thumbs/c.jpg`, `x.thumbs`, only
`a/b.jpg` is kept. -/
theorem list_files_filter_spec :
    (∀ (identifier : String) (files : List (Option (List Char))),
       (list_repository_files identifier 200 files).2 =
         (files.filterMap id).filter fun n => !hasThumbsComponent n) ∧
    (list_repository_files "id" 200
       [some "a/b.jpg".toList, some "a/b.thumbs/c.jpg".toList,
        some "x.thumbs".toList]).2 = ["a/b.jpg".toList] := by
  constructor
  · intro identifier files
    simp only [list_repository_files, if_pos rfl]
    exact filterFilesLoop_eq_filter files
  · decide

theorem uploadBatchLoop_spec (results : Nat → Bool) :
    ∀ (files : List String) (i : Nat) (acc : Bool),
      (uploadBatchLoop results files i acc).1 = files ∧
      ((uploadBatchLoop results files i acc).2 = true ↔
        acc = true ∧ ∀ j < files.length, results (i + j) = true) := by
  intro files
  induction files with
  | nil =>
    intro i acc
    refine ⟨rfl, ?_⟩
    simp [uploadBatchLoop]
  | cons f rest ih =>
    intro i acc
    constructor
    · simp only [uploadBatchLoop]
      rw [(ih (i + 1) (acc && results i)).1]
    · simp only [uploadBatchLoop]
      rw [(ih (i + 1) (acc && results i)).2]
      constructor
      · rintro ⟨hand, hall⟩
        obtain ⟨hacc, hres⟩ := Bool.and_eq_true_iff.mp hand
        refine ⟨hacc, ?_⟩
        intro j hj
        match j with
        | 0 => simpa using hres
        | j + 1 =>
          have hw := hall j (by simpa [List.length_cons] using Nat.lt_of_succ_lt_succ hj)
          rw [show i + (j + 1) = i + 1 + j from by omega]
          exact hw
      · rintro ⟨hacc, hall⟩
        refine ⟨Bool.and_eq_true_iff.mpr ⟨hacc, by simpa using hall 0 (Nat.succ_pos _)⟩, ?_⟩
        intro j hj
        have hw := hall (j + 1) (by simpa [List.length_cons] using Nat.succ_lt_succ hj)
        rw [show i + 1 + j = i + (j + 1) from by omega]
        exact hw

/-- C10: in the multi-file upload menu flow, every file in the list is
attempted regardless of earlier failures (the attempted list is the whole
input list), and the run is reported as an overall success exactly when
every individual upload returned success; concretely, a batch whose every
upload fails still attempts both of its files. -/
theorem upload_batch_spec :
    (∀ (results : Nat → Bool) (files : List String),
       (upload_menu_batch results files).1 = files) ∧
    (∀ (results : Nat → Bool) (files : List String),
       ((upload_menu_batch results files).2 = true ↔
         ∀ j < files.length, results j = true)) ∧
    (upload_menu_batch (fun _ => false) ["a", "b"]).1 = ["a", "b"] := by
  refine ⟨?_, ?_, by decide⟩
  · intro results files
    exact (uploadBatchLoop_spec results files 0 true).1
  · intro results files
    rw [upload_menu_batch, (uploadBatchLoop_spec results files 0 true).2]
    simp

theorem permUploadLoop_ok (identifier accessKey secretKey : String)
    (outcome : Nat → UpOutcome) :
    ∀ (fs : List (String × List Byte)) (i : Nat),
      (∀ j < fs.length, ∀ c, outcome (i + j) = UpOutcome.status c → c = 200) →
      permUploadLoop identifier accessKey secretKey outcome fs i =
        (fs.map (permReq identifier accessKey secretKey), true) := by
  intro fs
  induction fs with
  | nil => intro i _; rfl
  | cons f rest ih =>
    intro i h
    have hshift : ∀ j < rest.length, ∀ c, outcome (i + 1 + j) = UpOutcome.status c → c = 200 := by
      intro j hj c hc
      refine h (j + 1) (by simpa [List.length_cons] using Nat.succ_lt_succ hj) c ?_
      rwa [show i + (j + 1) = i + 1 + j from by omega]
    have hrec := ih (i + 1) hshift
    cases h0 : outcome i with
    | status c =>
      have hc : c = 200 := h 0 (Nat.succ_pos _) c (by simpa using h0)
      subst hc
      simp [permUploadLoop, h0, hrec]
    | exn =>
      simp [permUploadLoop, h0, hrec]

theorem permUploadLoop_fail (identifier accessKey secretKey : String)
    (outcome : Nat → UpOutcome) :
    ∀ (fs : List (String × List Byte)) (i k c : Nat),
      k < fs.length → outcome (i + k) = UpOutcome.status c → c ≠ 200 →
      (∀ j < k, ∀ c2, outcome (i + j) = UpOutcome.status c2 → c2 = 200) →
      permUploadLoop identifier accessKey secretKey outcome fs i =
        ((fs.take (k + 1)).map (permReq identifier accessKey secretKey), false) := by
  intro fs
  induction fs with
  | nil => intro i k c hk; exact absurd hk (by simp)
  | cons f rest ih =>
    intro i k c hk hout hc hbefore
    match k with
    | 0 =>
      have h0 : outcome i = UpOutcome.status c := by simpa using hout
      simp [permUploadLoop, h0, hc]
    | k + 1 =>
      have hrec := ih (i + 1) k c
        (by simpa [List.length_cons] using Nat.lt_of_succ_lt_succ hk)
        (by rwa [show i + 1 + k = i + (k + 1) from by omega])
        hc
        (fun j hj c2 hc2 => hbefore (j + 1) (Nat.succ_lt_succ hj) c2
          (by rwa [show i + (j + 1) = i + 1 + j from by omega]))
      cases h0 : outcome i with
      | status c2 =>
        have hc2 : c2 = 200 := hbefore 0 (Nat.succ_pos _) c2 (by simpa using h0)
        subst hc2
        simp [permUploadLoop, h0, hrec, List.take_succ_cons]
      | exn =>
        simp [permUploadLoop, h0, hrec, List.take_succ_cons]

/-- C3 counterexample: with credentials present and a single file whose
upload raises a caught exception (lines 265-266), the loop continues and
the metadata POST is still issued although that file's upload did not
succeed — refuting that the loop aborts on the first upload failure and
that the metadata mapping is POSTed only after every upload succeeded. -/
theorem initialize_metadata_counterexample :
    postReq "id" ∈ (initialize_repository (some "AK") (some "SK") "id"
        [("", [("a.txt", [])])] Mode.Permanent (fun _ => UpOutcome.exn)).1 ∧
    (fun _ => UpOutcome.exn : Nat → UpOutcome) 0 ≠ UpOutcome.status 200 := by
  decide

/-- C3 amended: with credentials present, in Permanent mode: if every file
outcome that is an HTTP response has status 200 (exceptions allowed), the
issued requests are the per-file PUTs in walk order followed by exactly one
metadata POST; and on the first outcome that is a response with a non-200
status, the function returns early — the issued requests are exactly the
PUTs of the files up to and including the failing one, and no metadata POST
is ever issued. -/
theorem initialize_permanent_spec (akEnv skEnv : Option String)
    (identifier : String) (walk : List (String × List (String × List Byte)))
    (outcome : Nat → UpOutcome)
    (hak : falsyEnv akEnv = false) (hsk : falsyEnv skEnv = false) :
    ((∀ j < (walkFiles walk).length, ∀ c, outcome j = UpOutcome.status c → c = 200) →
       (initialize_repository akEnv skEnv identifier walk Mode.Permanent outcome).1 =
         (walkFiles walk).map (permReq identifier (akEnv.getD "") (skEnv.getD "")) ++
           [postReq identifier] ∧
       ((initialize_repository akEnv skEnv identifier walk Mode.Permanent outcome).1.countP
          fun r => r.method == "POST") = 1) ∧
    (∀ k c, k < (walkFiles walk).length → outcome k = UpOutcome.status c → c ≠ 200 →
       (∀ j < k, ∀ c2, outcome j = UpOutcome.status c2 → c2 = 200) →
       (initialize_repository akEnv skEnv identifier walk Mode.Permanent outcome).1 =
         ((walkFiles walk).take (k + 1)).map
           (permReq identifier (akEnv.getD "") (skEnv.getD "")) ∧
       postReq identifier ∉
         (initialize_repository akEnv skEnv identifier walk Mode.Permanent outcome).1) := by
  have hcond : (falsyEnv akEnv || falsyEnv skEnv) = false := by rw [hak, hsk]; rfl
  constructor
  · intro hok
    have hloop := permUploadLoop_ok identifier (akEnv.getD "") (skEnv.getD "")
      outcome (walkFiles walk) 0 (fun j hj c hc => hok j hj c (by simpa using hc))
    have htrace : (initialize_repository akEnv skEnv identifier walk Mode.Permanent outcome).1 =
        (walkFiles walk).map (permReq identifier (akEnv.getD "") (skEnv.getD "")) ++
          [postReq identifier] := by
      simp [initialize_repository, hcond, hloop]
    refine ⟨htrace, ?_⟩
    rw [htrace, List.countP_append]
    have hzero : ((walkFiles walk).map
        (permReq identifier (akEnv.getD "") (skEnv.getD ""))).countP
          (fun r => r.method == "POST") = 0 := by
      rw [List.countP_eq_zero]
      intro r hr
      obtain ⟨f, _, rfl⟩ := List.mem_map.mp hr
      simp [permReq]
    rw [hzero]
    simp [postReq]
  · intro k c hk hout hc hbefore
    have hloop := permUploadLoop_fail identifier (akEnv.getD "") (skEnv.getD "")
      outcome (walkFiles walk) 0 k c hk (by simpa using hout) hc
      (fun j hj c2 hc2 => hbefore j hj c2 (by simpa using hc2))
    have htrace : (initialize_repository akEnv skEnv identifier walk Mode.Permanent outcome).1 =
        ((walkFiles walk).take (k + 1)).map
          (permReq identifier (akEnv.getD "") (skEnv.getD "")) := by
      simp [initialize_repository, hcond, hloop]
    refine ⟨htrace, ?_⟩
    rw [htrace]
    intro hmem
    obtain ⟨f, _, heq⟩ := List.mem_map.mp hmem
    have hm := congrArg Req.method heq
    simp only [permReq, postReq] at hm
    exact absurd hm (by decide)

/-- Witness for C3's amended theorem at concrete inputs: credentials
present, one file, all statuses 200; the metadata POST appears exactly
once. -/
theorem initialize_permanent_spec_witness :
    falsyEnv (some "AK") = false ∧
    ((initialize_repository (some "AK") (some "SK") "id" [("", [("a.txt", [])])]
        Mode.Permanent (fun _ => UpOutcome.status 200)).1.countP
      fun r => r.method == "POST") = 1 :=
  ⟨rfl,
   ((initialize_permanent_spec (some "AK") (some "SK") "id" [("", [("a.txt", [])])]
      (fun _ => UpOutcome.status 200) rfl rfl).1
      (fun j hj c hc => by injection hc with h; omega)).2⟩

/-- C8 counterexample: the credential check (lines 226-230) precedes the
mode test, so in Test mode with the credential variables unset the reported
would-upload list for a folder containing `a.txt` and `sub/b.txt` is empty,
not the two relative paths the claim requires. -/
theorem initialize_test_counterexample :
    (initialize_repository none none "id"
       [("", [("a.txt", [])]), ("sub", [("b.txt", [])])] Mode.Test
       (fun _ => UpOutcome.exn)).2 ≠ ["a.txt", "sub/b.txt"] := by
  decide

/-- C8 amended: `initialize_repository` in Test mode never issues a network
request, whatever the credentials; when the two credential environment
variables are present it reports exactly the walked files' paths relative
to the folder root as the would-upload list, and on a folder containing
`a.txt` and `sub/b.txt` that list is exactly `[a.txt, sub/b.txt]`. -/
theorem initialize_test_spec :
    (∀ (akEnv skEnv : Option String) (identifier : String)
        (walk : List (String × List (String × List Byte)))
        (outcome : Nat → UpOutcome),
       (initialize_repository akEnv skEnv identifier walk Mode.Test outcome).1 = []) ∧
    (∀ (akEnv skEnv : Option String) (identifier : String)
        (walk : List (String × List (String × List Byte)))
        (outcome : Nat → UpOutcome),
       falsyEnv akEnv = false → falsyEnv skEnv = false →
       (initialize_repository akEnv skEnv identifier walk Mode.Test outcome).2 =
         (walkFiles walk).map Prod.fst) ∧
    (initialize_repository (some "AK") (some "SK") "id"
       [("", [("a.txt", [])]), ("sub", [("b.txt", [])])] Mode.Test
       (fun _ => UpOutcome.exn)).2 = ["a.txt", "sub/b.txt"] := by
  refine ⟨?_, ?_, by decide⟩
  · intro akEnv skEnv identifier walk outcome
    by_cases hcred : (falsyEnv akEnv || falsyEnv skEnv) = true
    · simp [initialize_repository, hcred]
    · simp [initialize_repository, hcred]
  · intro akEnv skEnv identifier walk outcome hak hsk
    have hcond : (falsyEnv akEnv || falsyEnv skEnv) = false := by rw [hak, hsk]; rfl
    simp [initialize_repository, hcond]

/-- Witness for C8's amended theorem at concrete inputs: credentials
present, and the reported list equals the walked relative paths. -/
theorem initialize_test_spec_witness :
    falsyEnv (some "AK") = false ∧
    (initialize_repository (some "AK") (some "SK") "id"
       [("", [("a.txt", ([] : List Byte))])] Mode.Test (fun _ => UpOutcome.exn)).2 =
      (walkFiles [("", [("a.txt", ([] : List Byte))])]).map Prod.fst :=
  ⟨rfl,
   initialize_test_spec.2.1 (some "AK") (some "SK") "id"
     [("", [("a.txt", ([] : List Byte))])] (fun _ => UpOutcome.exn) rfl rfl⟩

end IAInteract
